import Mathlib

/-!
Verification development for the serenity-mdrecorder storage core.

We give a shallow embedding, in Lean, of the two storage components of the
repository — the memory-mapped binary journal
(`src/cloudwall/serenity/mdrecorder/journal.py`) and the bitemporal tickstore
(`src/cloudwall/serenity/mdrecorder/tickstore.py`) — and prove or refute the
frozen specification claims against it.

Modelling conventions:
* the memory-mapped region is a `List Nat` of bytes (each `< 256`), of length
  `max_size`, zero-filled at creation exactly as the Python code does;
* machine integers are `Nat` / `Int` with explicit two's-complement packing
  where the code packs them (`struct.pack`); Python's arbitrary-precision `~`
  is `-v - 1`;
* Python exceptions become values of the `JErr` error type. A raised
  exception aborts the operation; state mutated before the raise persists,
  so every operation returns its (partially) updated state next to an
  `Except JErr` result;
* `datetime.date` is a `year/month/day` record; wall-clock instants are `Int`
  nanosecond timestamps, with the pandas `Timestamp.min/max` sentinels.
-/

set_option maxRecDepth 4000

namespace MDRec

/-! ## Byte-buffer primitives -/

/-- Write the byte list `bs` into `buf` starting at `pos`
(`buf[pos:pos+len(bs)] = bs`). -/
def writeBytes (buf : List Nat) (pos : Nat) : List Nat → List Nat
  | [] => buf
  | b :: bs => writeBytes (buf.set pos b) (pos + 1) bs

/-- Read `n` bytes from `buf` starting at `off` (`buf[off:off+n]`). -/
def readBytes (buf : List Nat) (off n : Nat) : List Nat :=
  (buf.drop off).take n

theorem writeBytes_length (bs : List Nat) (buf : List Nat) (pos : Nat) :
    (writeBytes buf pos bs).length = buf.length := by
  induction bs generalizing buf pos with
  | nil => rfl
  | cons b bs ih => simp [writeBytes, ih]

/-- In-range `writeBytes` is a take/patch/drop decomposition. -/
theorem writeBytes_eq (bs : List Nat) (buf : List Nat) (pos : Nat)
    (h : pos + bs.length ≤ buf.length) :
    writeBytes buf pos bs =
      buf.take pos ++ (bs ++ buf.drop (pos + bs.length)) := by
  induction bs generalizing buf pos with
  | nil => simp [writeBytes]
  | cons b bs ih =>
    simp only [List.length_cons] at h
    have hpos : pos < buf.length := by omega
    rw [writeBytes, ih (buf.set pos b) (pos + 1)
      (by simp only [List.length_set]; omega)]
    have htake : (buf.set pos b).take (pos + 1) = buf.take pos ++ [b] := by
      rw [List.take_succ, List.set_take,
        List.set_eq_of_length_le (by simp [Nat.min_le_left]),
        List.getElem?_set_self (by simpa using hpos)]
      rfl
    have hdrop : (buf.set pos b).drop (pos + 1 + bs.length) =
        buf.drop (pos + (bs.length + 1)) := by
      rw [List.drop_set, if_pos (by omega)]
      congr 1
      omega
    rw [htake, hdrop]
    simp [Nat.add_comm bs.length 1]

theorem readBytes_writeBytes (bs : List Nat) (buf : List Nat) (pos : Nat)
    (h : pos + bs.length ≤ buf.length) :
    readBytes (writeBytes buf pos bs) pos bs.length = bs := by
  have h1 : (buf.take pos).length = pos := by
    simp only [List.length_take]
    omega
  rw [readBytes, writeBytes_eq bs buf pos h, List.drop_left' h1,
    List.take_left' rfl]

/-! ## Journal errors

`journal.py` defines `NoSpaceException`; past-the-extent accesses raise
`IndexError` (byte indexing) or `struct.error` (short slice), which we fold
into a single `bounds` failure; `_write_stopbit` raises `ValueError` on a
negative length (the spec's `EncodingError`); `write_byte`'s
`assert value < 256` raises `AssertionError`. -/

inductive JErr where
  | noSpace
  | bounds
  | encoding
  | assertFail
  | structError
  | unicodeError
deriving DecidableEq, Repr

/-! ## JournalReader

`JournalReader.__init__` stores the mapped region and an offset initialised
to 4. Fixed-width reads slice `mm[offset : offset+sz]` and `struct.unpack`;
a slice extending past the region yields too few bytes and `struct.unpack`
raises (and `mm[offset]` raises `IndexError` for `read_byte`), in both cases
before `_advance` runs, so the offset is unchanged on failure. -/

structure Reader where
  offset : Nat
  mm : List Nat
deriving Repr

/-- `struct.unpack` of an unsigned little-endian integer value. -/
def leValue : List Nat → Nat
  | [] => 0
  | b :: bs => b + 256 * leValue bs

/-- Signed reinterpretation of an `n`-byte little-endian value
(two's complement), as `struct.unpack('h'/'i'/'q')` does. -/
def leSigned (n : Nat) (bs : List Nat) : Int :=
  let u := leValue bs
  if u < 2 ^ (8 * n - 1) then (u : Int) else (u : Int) - 2 ^ (8 * n)

/-- `JournalReader.read_byte`: `ret = self.mm[self.offset]` then advance 1.
`mm[offset]` raises `IndexError` when the offset is past the extent. -/
def Reader.read_byte (rd : Reader) : Except JErr Nat × Reader :=
  if rd.offset < rd.mm.length then
    (Except.ok (rd.mm.getD rd.offset 0), { rd with offset := rd.offset + 1 })
  else (Except.error JErr.bounds, rd)

/-- Generic fixed-width read: slice `sz` bytes, unpack signed, advance.
A short slice makes `struct.unpack` raise before `_advance`. -/
def Reader.read_fixed (rd : Reader) (sz : Nat) : Except JErr Int × Reader :=
  if rd.offset + sz ≤ rd.mm.length then
    (Except.ok (leSigned sz (readBytes rd.mm rd.offset sz)),
      { rd with offset := rd.offset + sz })
  else (Except.error JErr.bounds, rd)

/-- `JournalReader.read_short` (`struct.unpack('h')`, 2 bytes). -/
def Reader.read_short (rd : Reader) : Except JErr Int × Reader :=
  rd.read_fixed 2

/-- `JournalReader.read_int` (`struct.unpack('i')`, 4 bytes). -/
def Reader.read_int (rd : Reader) : Except JErr Int × Reader :=
  rd.read_fixed 4

/-- `JournalReader.read_long` (`struct.unpack('q')`, 8 bytes). -/
def Reader.read_long (rd : Reader) : Except JErr Int × Reader :=
  rd.read_fixed 8

/-- `JournalReader.read_float`: 4-byte slice reinterpreted as IEEE-754; we
keep the raw bits (the code only copies them). -/
def Reader.read_float (rd : Reader) : Except JErr (List Nat) × Reader :=
  if rd.offset + 4 ≤ rd.mm.length then
    (Except.ok (readBytes rd.mm rd.offset 4), { rd with offset := rd.offset + 4 })
  else (Except.error JErr.bounds, rd)

/-- `JournalReader.read_double`: 8-byte slice reinterpreted as IEEE-754. -/
def Reader.read_double (rd : Reader) : Except JErr (List Nat) × Reader :=
  if rd.offset + 8 ≤ rd.mm.length then
    (Except.ok (readBytes rd.mm rd.offset 8), { rd with offset := rd.offset + 8 })
  else (Except.error JErr.bounds, rd)

/-- `JournalReader._read_stopbit`: loop `read_byte` over `(mm, offset)`,
accumulate `value += (b & 0x7f) << shift`, `shift += 7`, stop when
`(b & 0x80) == 0`; returns the value and the final offset. Recursion is
bounded by the bytes remaining in the region (running off the end raises
`IndexError` from `read_byte`). -/
def read_stopbit_loop (mm : List Nat) (offset shift value : Nat) :
    Except JErr Nat × Nat :=
  if _h : offset < mm.length then
    let b := mm.getD offset 0
    if (b &&& 0x80) == 0 then
      (Except.ok (value + ((b &&& 0x7f) <<< shift)), offset + 1)
    else
      read_stopbit_loop mm (offset + 1) (shift + 7)
        (value + ((b &&& 0x7f) <<< shift))
  else (Except.error JErr.bounds, offset)
termination_by mm.length - offset

def Reader.read_stopbit (rd : Reader) : Except JErr Nat × Reader :=
  match read_stopbit_loop rd.mm rd.offset 0 0 with
  | (r, off) => (r, { rd with offset := off })

/-! ## Dates and little-endian packing -/

/-- `datetime.date`. -/
structure Date where
  year : Nat
  month : Nat
  day : Nat
deriving DecidableEq, Repr

/-- Little-endian base-256 digits of `u`, `n` bytes (`struct.pack` payload). -/
def leBytes : Nat → Nat → List Nat
  | 0, _ => []
  | n + 1, u => u % 256 :: leBytes n (u / 256)

/-- `struct.pack` of a signed `n`-byte integer: range-checked, then the
two's-complement little-endian bytes of `v`. -/
def pack_signed (n : Nat) (v : Int) : Except JErr (List Nat) :=
  if -(2 ^ (8 * n - 1) : Int) ≤ v ∧ v < (2 ^ (8 * n - 1) : Int) then
    Except.ok (leBytes n ((v % ((2 : Int) ^ (8 * n))).toNat))
  else Except.error JErr.structError

/-- Python's `~v` on arbitrary-precision integers. -/
def pyNot (v : Int) : Int := -v - 1

/-! ## JournalAppender

State of `JournalAppender`: write position, `start_pos`, capacity, the
current day and its mapped buffer (`None` before the first write and after
`close`). `__init__` sets `pos = 4` (and, through a typo, `start_post`;
`start_pos` is first assigned in `_get_current_mmap`, which always runs
before `close` can reach it because `close` requires `self.mm`).

We model the steady appender: `_get_mmap(date, 'a+b')` is taken in its
fresh-file branch (`'w+b'`, a zero-filled region of `max_size` bytes);
re-opening a pre-existing day file is outside the claims. -/

structure Appender where
  current_date : Option Date
  pos : Nat
  start_pos : Nat
  max_size : Nat
  mm : Option (List Nat)
deriving Repr

/-- `JournalAppender.__init__`. -/
def Appender.init (max_size : Nat) : Appender :=
  { current_date := none, pos := 4, start_pos := 4,
    max_size := max_size, mm := none }

/-- `JournalAppender._check_space`: `pos + add_length >= max_size` raises
`NoSpaceException`. -/
def Appender.check_space (ap : Appender) (add_length : Nat) : Option JErr :=
  if ap.pos + add_length ≥ ap.max_size then some JErr.noSpace else none

/-- `JournalAppender.close`: if a mapping is open, write
`struct.pack('i', ~length)` (with `length = pos - start_pos`) into bytes
[0,4), unmap and clear `self.mm`. The finalized file contents are returned
next to the updated appender; `struct.pack` range failures surface as
`structError`. -/
def Appender.close (ap : Appender) : (Appender × Option (List Nat)) × Option JErr :=
  match ap.mm with
  | none => ((ap, none), none)
  | some buf =>
    let length : Int := (ap.pos : Int) - (ap.start_pos : Int)
    match pack_signed 4 (pyNot length) with
    | Except.error e => ((ap, none), some e)
    | Except.ok hdr => (({ ap with mm := none }, some (writeBytes buf 0 hdr)), none)

/-- `JournalAppender._get_current_mmap`: on a date change, `close()` the
previous mapping and map the new day's file (fresh: zero-filled, offsets
reset to 4). Returns the updated appender; the buffer is its `mm` field. -/
def Appender.get_current_mmap (ap : Appender) (today : Date) :
    Appender × Option JErr :=
  if ap.current_date = some today then (ap, none)
  else
    match ap.close with
    | ((ap1, _), some e) => (ap1, some e)
    | ((ap1, _), none) =>
      ({ ap1 with
          current_date := some today
          pos := 4
          start_pos := 4
          mm := some (List.replicate ap1.max_size 0) }, none)

/-- The buffer an appender writes through (empty if unmapped; every write
path runs `get_current_mmap` first, which maps one). -/
def Appender.buf (ap : Appender) : List Nat := ap.mm.getD []

/-- Write `bytes` through the current mapping at `pos` and `_advance`. -/
def Appender.put (ap : Appender) (bytes : List Nat) : Appender :=
  { ap with
    mm := some (writeBytes ap.buf ap.pos bytes)
    pos := ap.pos + bytes.length }

/-- Shared shape of `write_short/int/long/float/double`:
`_check_space(val_sz)`, then `struct.pack` (the assignment's right-hand
side), then `_get_current_mmap()[pos:pos+val_sz] = ...`, then `_advance`. -/
def Appender.write_fixed (ap : Appender) (today : Date)
    (packed : Except JErr (List Nat)) (val_sz : Nat) :
    Appender × Option JErr :=
  match ap.check_space val_sz with
  | some e => (ap, some e)
  | none =>
    match packed with
    | Except.error e => (ap, some e)
    | Except.ok bytes =>
      match ap.get_current_mmap today with
      | (ap1, some e) => (ap1, some e)
      | (ap1, none) => (ap1.put bytes, none)

/-- `JournalAppender.write_byte`: `assert value < 256`, check space for one
byte, `mm[pos] = value`, advance. -/
def Appender.write_byte (ap : Appender) (today : Date) (value : Nat) :
    Appender × Option JErr :=
  if value < 256 then
    match ap.check_space 1 with
    | some e => (ap, some e)
    | none =>
      match ap.get_current_mmap today with
      | (ap1, some e) => (ap1, some e)
      | (ap1, none) => (ap1.put [value], none)
  else (ap, some JErr.assertFail)

/-- `JournalAppender.write_boolean`: one byte, `1` or `0`. -/
def Appender.write_boolean (ap : Appender) (today : Date) (value : Bool) :
    Appender × Option JErr :=
  match ap.check_space 1 with
  | some e => (ap, some e)
  | none =>
    match ap.get_current_mmap today with
    | (ap1, some e) => (ap1, some e)
    | (ap1, none) => (ap1.put [if value then 1 else 0], none)

/-- `JournalAppender.write_short` (`struct.pack('h')`). -/
def Appender.write_short (ap : Appender) (today : Date) (value : Int) :
    Appender × Option JErr :=
  ap.write_fixed today (pack_signed 2 value) 2

/-- `JournalAppender.write_int` (`struct.pack('i')`). -/
def Appender.write_int (ap : Appender) (today : Date) (value : Int) :
    Appender × Option JErr :=
  ap.write_fixed today (pack_signed 4 value) 4

/-- `JournalAppender.write_long` (`struct.pack('q')`). -/
def Appender.write_long (ap : Appender) (today : Date) (value : Int) :
    Appender × Option JErr :=
  ap.write_fixed today (pack_signed 8 value) 8

/-- `JournalAppender.write_float`: `struct.pack('f', value)` always yields
4 bytes; we take the IEEE-754 bits as given (the code only copies them). -/
def Appender.write_float (ap : Appender) (today : Date) (bits : List Nat) :
    Appender × Option JErr :=
  ap.write_fixed today (Except.ok bits) 4

/-- `JournalAppender.write_double`: 8 IEEE-754 bytes. -/
def Appender.write_double (ap : Appender) (today : Date) (bits : List Nat) :
    Appender × Option JErr :=
  ap.write_fixed today (Except.ok bits) 8

/-- The loop of `JournalAppender._write_stopbit` over a buffer: while
`value > 127` store `0x80 | (value & 0x7f)` and shift; finally store the
last group. `mm[pos]` assignment past the mapped extent raises
`IndexError`; there is no `_check_space` call anywhere in this loop. -/
def write_stopbit_loop (buf : List Nat) (pos : Nat) (value : Nat) :
    (List Nat × Nat) × Option JErr :=
  if 127 < value then
    if pos < buf.length then
      write_stopbit_loop (buf.set pos (0x80 ||| (value &&& 0x7f))) (pos + 1)
        (value >>> 7)
    else ((buf, pos), some JErr.bounds)
  else
    if pos < buf.length then ((buf.set pos value, pos + 1), none)
    else ((buf, pos), some JErr.bounds)
termination_by value
decreasing_by
  rename_i h _
  rw [Nat.shiftRight_eq_div_pow]
  exact Nat.div_lt_self (by omega) (by norm_num)

/-- `JournalAppender._write_stopbit`: negative values raise `ValueError`
(the spec's `EncodingError`); otherwise fetch the mapping once and run the
store loop, leaving `pos` advanced past the bytes written. -/
def Appender.write_stopbit (ap : Appender) (today : Date) (value : Int) :
    Appender × Option JErr :=
  if value < 0 then (ap, some JErr.encoding)
  else
    match ap.get_current_mmap today with
    | (ap1, some e) => (ap1, some e)
    | (ap1, none) =>
      match write_stopbit_loop ap1.buf ap1.pos value.toNat with
      | ((buf2, pos2), e) => ({ ap1 with mm := some buf2, pos := pos2 }, e)

/-! ## UTF-8 (Python `str.encode()` / `bytes.decode()`)

`str.encode()` is CPython's UTF-8 encoder: it rejects lone surrogates and
emits the standard 1–4 byte forms. We model code points as `Nat` and define
the standard encoding arithmetically. -/

/-- A code point `str.encode()` accepts: in range and not a surrogate. -/
def charValid (c : Nat) : Prop := c < 0x110000 ∧ ¬(0xD800 ≤ c ∧ c < 0xE000)

instance (c : Nat) : Decidable (charValid c) := by
  unfold charValid
  infer_instance

/-- UTF-8 encoding of one code point. -/
def utf8EncodeChar (c : Nat) : List Nat :=
  if c < 0x80 then [c]
  else if c < 0x800 then [0xC0 + c / 0x40, 0x80 + c % 0x40]
  else if c < 0x10000 then
    [0xE0 + c / 0x1000, 0x80 + c / 0x40 % 0x40, 0x80 + c % 0x40]
  else
    [0xF0 + c / 0x40000, 0x80 + c / 0x1000 % 0x40, 0x80 + c / 0x40 % 0x40,
      0x80 + c % 0x40]

/-- UTF-8 encoding of a string (list of code points). -/
def utf8Encode (cs : List Nat) : List Nat :=
  cs.flatMap utf8EncodeChar

/-- A UTF-8 continuation byte (`0b10xxxxxx`). -/
def utf8Cont (b : Nat) : Prop := 0x80 ≤ b ∧ b < 0xC0

instance (b : Nat) : Decidable (utf8Cont b) := by
  unfold utf8Cont
  infer_instance

/-- UTF-8 decoding (`bytes.decode()`); `none` on malformed input. The
continuation bytes are reached through `headD`/`drop` so the recursion has
a single flat shape. -/
def utf8Decode : List Nat → Option (List Nat)
  | [] => some []
  | b :: rest =>
    if b < 0x80 then (utf8Decode rest).map (b :: ·)
    else if b < 0xC2 then none
    else if b < 0xE0 then
      if 1 ≤ rest.length ∧ utf8Cont (rest.headD 0) then
        (utf8Decode (rest.drop 1)).map
          (((b - 0xC0) * 0x40 + (rest.headD 0 - 0x80)) :: ·)
      else none
    else if b < 0xF0 then
      if 2 ≤ rest.length ∧ utf8Cont (rest.headD 0) ∧
          utf8Cont ((rest.drop 1).headD 0) then
        (utf8Decode (rest.drop 2)).map
          (((b - 0xE0) * 0x1000 + (rest.headD 0 - 0x80) * 0x40 +
            ((rest.drop 1).headD 0 - 0x80)) :: ·)
      else none
    else if b < 0xF5 then
      if 3 ≤ rest.length ∧ utf8Cont (rest.headD 0) ∧
          utf8Cont ((rest.drop 1).headD 0) ∧ utf8Cont ((rest.drop 2).headD 0) then
        (utf8Decode (rest.drop 3)).map
          (((b - 0xF0) * 0x40000 + (rest.headD 0 - 0x80) * 0x1000 +
            ((rest.drop 1).headD 0 - 0x80) * 0x40 +
            ((rest.drop 2).headD 0 - 0x80)) :: ·)
      else none
    else none
termination_by bs => bs.length
decreasing_by
  all_goals simp only [List.length_drop, List.length_cons]
  all_goals omega

/-- `JournalAppender.write_string`: encode, `_write_stopbit(len)` (which
writes the varint prefix with no capacity check), only then
`_check_space(len)`, then store the payload and advance. -/
def Appender.write_string (ap : Appender) (today : Date) (cs : List Nat) :
    Appender × Option JErr :=
  if cs.all (fun c => decide (charValid c)) then
    let encoded := utf8Encode cs
    let val_sz := encoded.length
    match ap.write_stopbit today (val_sz : Int) with
    | (ap1, some e) => (ap1, some e)
    | (ap1, none) =>
      match ap1.check_space val_sz with
      | some e => (ap1, some e)
      | none => (ap1.put encoded, none)
  else (ap, some JErr.unicodeError)

/-- `JournalReader.read_string`: `_read_stopbit`, slice that many bytes,
`decode()`, advance. A malformed slice raises `UnicodeDecodeError`. -/
def Reader.read_string (rd : Reader) : Except JErr (List Nat) × Reader :=
  match rd.read_stopbit with
  | (Except.error e, rd1) => (Except.error e, rd1)
  | (Except.ok val_sz, rd1) =>
    match utf8Decode (readBytes rd1.mm rd1.offset val_sz) with
    | none => (Except.error JErr.unicodeError, rd1)
    | some cs => (Except.ok cs, { rd1 with offset := rd1.offset + val_sz })

/-- `JournalReader.get_length`: `~struct.unpack('i', mm[0:4])[0]`. -/
def Reader.get_length (rd : Reader) : Int :=
  pyNot (leSigned 4 (readBytes rd.mm 0 4))

/-! ## Path formatting -/

/-- Left-pad a string to width `w` with `c` (Python `%4d` / `{:02d}`). -/
def padChar (c : Char) (w : Nat) (s : String) : String :=
  String.mk (List.replicate (w - s.length) c) ++ s

/-- Python `'{:0Nd}'.format(n)`. -/
def padZero (w n : Nat) : String :=
  padChar '0' w (Nat.repr n)

/-- `Journal._get_mmap_path`: `'%4d%02d%02d/journal.dat' % (y, m, d)` under
the base path (`%4d` space-pads). -/
def get_mmap_path (base : String) (d : Date) : String :=
  base ++ "/" ++ padChar ' ' 4 (Nat.repr d.year) ++ padZero 2 d.month ++
    padZero 2 d.day ++ "/journal.dat"

/-- `Journal` (base path and capacity). -/
structure Journal where
  base_path : String
  max_size : Nat
deriving Repr

/-- `Journal.create_reader(self, date=datetime.datetime.utcnow().date())`,
reduced to the path it maps. Python evaluates the default expression once,
when the `class Journal` body executes; we pass that captured value as
`classDefDate`. `callDate` is the UTC date at call time — the code never
consults it. -/
def Journal.create_reader (j : Journal) (classDefDate : Date)
    (dateArg : Option Date) (callDate : Date) : String :=
  let _ := callDate
  get_mmap_path j.base_path (dateArg.getD classDefDate)

/-! ## Bitemporal tickstore (`tickstore.py`)

Wall-clock instants are `Int` values in a common ordered domain; a calendar
date enters that domain through `dateVal` (pandas compares the index's
`date` level against the query datetimes). The pandas sentinels
`Timestamp.min/max` (as `BiTimestamp.start_as_of` / `latest_as_of`) are the
extreme nanosecond values. -/

def start_as_of : Int := -9223372036854775807

def latest_as_of : Int := 9223372036854775807

/-- `BiTimestamp`. -/
structure BiTimestamp where
  as_at_date : Date
  as_of_time : Int := latest_as_of
deriving DecidableEq, Repr

/-- Day-granular position of a calendar date on the time axis. -/
def dateVal (d : Date) : Int :=
  (d.year * 10000 + d.month * 100 + d.day : Nat)

/-- One row of the `DataFrameIndex` table: multi-index `(symbol, date)`,
columns `start_time`, `end_time`, `version`, `path`. -/
structure IndexRow where
  symbol : String
  date : Date
  start_time : Int
  end_time : Int
  version : Nat
  path : String
deriving DecidableEq, Repr

/-- Row key test for the `(symbol, date)` multi-index. -/
def IndexRow.keyIs (r : IndexRow) (symbol : String) (d : Date) : Bool :=
  r.symbol == symbol && r.date == d

/-- `df.loc[~df.index.duplicated(keep='first')]`: keep only the first row
bearing each `(symbol, date)` key. -/
def dedupGo (seen : List (String × Date)) : List IndexRow → List IndexRow
  | [] => []
  | r :: rs =>
    if (r.symbol, r.date) ∈ seen then dedupGo seen rs
    else r :: dedupGo ((r.symbol, r.date) :: seen) rs

def dedupKeepFirst (rows : List IndexRow) : List IndexRow :=
  dedupGo [] rows

/-- `DataFrameIndex.select`: short-circuit empty when the symbol is absent,
else the rows of that symbol whose date lies in `[start, end]` and whose
`[start_time, end_time]` interval contains `as_of_time`. -/
def indexSelect (df : List IndexRow) (symbol : String)
    (startT endT asOf : Int) : List IndexRow :=
  if df.all (fun r => r.symbol != symbol) then []
  else
    df.filter (fun r =>
      r.symbol == symbol && decide (dateVal r.date ≥ startT) &&
        decide (dateVal r.date ≤ endT) && decide (r.start_time ≤ asOf) &&
        decide (r.end_time ≥ asOf))

/-- `DataFrameIndex.insert`: if the key exists, read the last key row's
version (`all_versions['version'][-1]`), stamp `end_time = now` onto the
key rows of that version (`df.update(all_versions)`), and use
`version = prev + 1`, `start_time = now`; else `version = 0` with the
sentinels. Then build the path, append the new row, and drop duplicate
`(symbol, date)` labels keeping the first occurrence. Returns the updated
table and the write path. -/
def indexInsert (df : List IndexRow) (symbol : String) (as_at_date : Date)
    (now : Int) (pathFn : Nat → String) : List IndexRow × String :=
  if (df.filter (fun r => r.keyIs symbol as_at_date)).isEmpty then
    let version := 0
    let write_path := pathFn version
    let newRow : IndexRow :=
      { symbol := symbol, date := as_at_date, start_time := start_as_of,
        end_time := latest_as_of, version := version, path := write_path }
    (dedupKeepFirst (df ++ [newRow]), write_path)
  else
    let all_versions := df.filter (fun r => r.keyIs symbol as_at_date)
    let prev_version := ((all_versions.map IndexRow.version).getLast?).getD 0
    let df1 := df.map (fun r =>
      if r.keyIs symbol as_at_date && r.version == prev_version then
        { r with end_time := now }
      else r)
    let version := prev_version + 1
    let write_path := pathFn version
    let newRow : IndexRow :=
      { symbol := symbol, date := as_at_date, start_time := now,
        end_time := latest_as_of, version := version, path := write_path }
    (dedupKeepFirst (df1 ++ [newRow]), write_path)

/-- `DataFrameIndex.delete`: when the key has rows, stamp `end_time = now`
onto the key rows carrying the last key row's version; otherwise nothing
happens. No row is ever added or removed. -/
def indexDelete (df : List IndexRow) (symbol : String) (as_at_date : Date)
    (now : Int) : List IndexRow :=
  if (df.filter (fun r => r.keyIs symbol as_at_date)).isEmpty then df
  else
    let all_versions := df.filter (fun r => r.keyIs symbol as_at_date)
    let prev_version := ((all_versions.map IndexRow.version).getLast?).getD 0
    df.map (fun r =>
      if r.keyIs symbol as_at_date && r.version == prev_version then
        { r with end_time := now }
      else r)

/-! ## LocalTickstore -/

/-- A tick: the configured timestamp column plus opaque payload. -/
structure Tick where
  ts : Int
  data : Int
deriving DecidableEq, Repr

/-- Ascending order on the timestamp index (`sort_index`). -/
def tickLe (a b : Tick) : Prop := a.ts ≤ b.ts

instance : DecidableRel tickLe := fun a b => Int.decLe a.ts b.ts

instance : IsTotal Tick tickLe := ⟨fun a b => Int.le_total a.ts b.ts⟩

instance : IsTrans Tick tickLe := ⟨fun _ _ _ h1 h2 => le_trans h1 h2⟩

/-- The store raises a bare `Exception('unable to perform operation while
closed: …')` — the spec's `ClosedStoreError`. -/
inductive TSErr where
  | closedStore
deriving DecidableEq, Repr

/-- `LocalTickstore` state: base path, the in-memory index table, and the
`closed` flag. -/
structure LocalTickstore where
  base_path : String
  index : List IndexRow
  closed : Bool
deriving Repr

/-- `LocalTickstore.insert`'s `create_write_path` closure:
`'{}/{:02d}/{:02d}/{}_{:04d}.h5'.format(y, m, d, symbol, version)` joined
under the base path. -/
def create_write_path (base : String) (as_at_date : Date) (symbol : String)
    (version : Nat) : String :=
  base ++ "/" ++ Nat.repr as_at_date.year ++ "/" ++ padZero 2 as_at_date.month
    ++ "/" ++ padZero 2 as_at_date.day ++ "/" ++ symbol ++ "_" ++
    padZero 4 version ++ ".h5"

/-- `LocalTickstore.select`: check `closed`, resolve index rows, return the
empty frame if none, else load every matching splay file (`load` models
`pd.read_hdf`), concatenate in row order, filter the timestamp column to
`[start, end]`, and `sort_index()` ascending. -/
def LocalTickstore.select (store : LocalTickstore)
    (load : String → List Tick) (symbol : String) (startT endT asOf : Int) :
    Except TSErr (List Tick) :=
  if store.closed then Except.error TSErr.closedStore
  else
    let selected := indexSelect store.index symbol startT endT asOf
    if selected.isEmpty then Except.ok []
    else
      let all_ticks := selected.flatMap (fun r => load r.path)
      let selected_ticks := all_ticks.filter (fun t =>
        decide (startT ≤ t.ts) && decide (t.ts ≤ endT))
      Except.ok (selected_ticks.insertionSort tickLe)

/-- `LocalTickstore.insert`: check `closed`, have the index allocate the
versioned path, then write the batch there (`mode='w'`: a pre-existing file
at the same path is overwritten). Returns the new store and that path. -/
def LocalTickstore.insert (store : LocalTickstore) (symbol : String)
    (ts : BiTimestamp) (now : Int) :
    Except TSErr (LocalTickstore × String) :=
  if store.closed then Except.error TSErr.closedStore
  else
    let as_at_date := ts.as_at_date
    let res := indexInsert store.index symbol as_at_date now
      (create_write_path store.base_path as_at_date symbol)
    Except.ok ({ store with index := res.1 }, res.2)

/-- `LocalTickstore.delete`: check `closed`, then logical delete in the
index. -/
def LocalTickstore.delete (store : LocalTickstore) (symbol : String)
    (ts : BiTimestamp) (now : Int) : Except TSErr LocalTickstore :=
  if store.closed then Except.error TSErr.closedStore
  else Except.ok { store with index := indexDelete store.index symbol ts.as_at_date now }

/-- `LocalTickstore.destroy`: `shutil.rmtree(base_path)` — note there is no
`_check_closed` call on this path. -/
def LocalTickstore.destroy (store : LocalTickstore) : Except TSErr Unit :=
  let _ := store
  Except.ok ()

/-- `LocalTickstore.close`: flush the index (no in-memory state change) and
latch `closed`; a second call finds `closed` already set and does nothing. -/
def LocalTickstore.close (store : LocalTickstore) : LocalTickstore :=
  if !store.closed then { store with closed := true } else store

/-! ## Claims -/

/-- **C10**: the default date of `Journal.create_reader` is the UTC date
captured when the class body executed (`classDefDate`), not the call-time
date: two argument-less calls map the same day's file regardless of the
dates on which they are made, namely the file for `classDefDate`. -/
theorem create_reader_default_captured (j : Journal) (classDefDate : Date)
    (d1 d2 : Date) :
    j.create_reader classDefDate none d1 = j.create_reader classDefDate none d2 ∧
    j.create_reader classDefDate none d1 = get_mmap_path j.base_path classDefDate :=
  ⟨rfl, rfl⟩

/-- **C6 (counterexample)**: `destroy` performs no closed-check: on a store
that has been closed it succeeds instead of failing with `ClosedStoreError`,
refuting the claim that every mutating operation post-close fails. -/
theorem destroy_after_close_succeeds :
    (LocalTickstore.close ⟨"/store", [], false⟩).closed = true ∧
    (LocalTickstore.close ⟨"/store", [], false⟩).destroy = Except.ok () := by
  constructor <;> rfl

/-- **C6 (amended)**: after `close()`, `insert`, `delete` and `select` all
fail with `ClosedStoreError`; `close` is idempotent; but `destroy` performs
no closed-check and succeeds post-close. -/
theorem closed_store_lifecycle (s : LocalTickstore) :
    s.close.closed = true ∧
    (∀ sym ts now, s.close.insert sym ts now = Except.error TSErr.closedStore) ∧
    (∀ sym ts now, s.close.delete sym ts now = Except.error TSErr.closedStore) ∧
    (∀ load sym a b c,
      s.close.select load sym a b c = Except.error TSErr.closedStore) ∧
    s.close.close = s.close ∧
    s.close.destroy = Except.ok () := by
  have hc : s.close.closed = true := by
    cases hb : s.closed <;> simp [LocalTickstore.close, hb]
  refine ⟨hc, ?_, ?_, ?_, ?_, rfl⟩
  · intro sym ts now
    simp [LocalTickstore.insert, hc]
  · intro sym ts now
    simp [LocalTickstore.delete, hc]
  · intro load sym a b c
    simp [LocalTickstore.select, hc]
  · generalize s.close = t at hc ⊢
    simp [LocalTickstore.close, hc]

/-- **C9**: `DataFrameIndex.delete` never adds or removes rows and never
touches the `symbol`, `date`, `version` or `path` of any row (it only
stamps `end_time`); on a key with no index row it is a no-op that raises
nothing and leaves the table unchanged. -/
theorem indexDelete_frame (df : List IndexRow) (sym : String) (d : Date)
    (now : Int) :
    (indexDelete df sym d now).length = df.length ∧
    (∀ i : Nat,
      ((indexDelete df sym d now)[i]?).map
          (fun r => (r.symbol, r.date, r.version, r.path)) =
        (df[i]?).map (fun r => (r.symbol, r.date, r.version, r.path))) ∧
    ((df.filter (fun r => r.keyIs sym d)).isEmpty = true →
      indexDelete df sym d now = df) := by
  by_cases hemp : (df.filter (fun r => r.keyIs sym d)).isEmpty = true
  · simp only [indexDelete, if_pos hemp]
    simp
  · simp only [indexDelete, if_neg hemp]
    refine ⟨List.length_map df _, ?_, fun h => absurd h hemp⟩
    intro i
    rw [List.getElem?_map]
    cases df[i]? with
    | none => rfl
    | some r =>
      simp only [Option.map_some']
      split <;> rfl

/-- **C9 (witness)**: deleting an absent key from a one-row index leaves it
unchanged. -/
theorem indexDelete_frame_witness :
    indexDelete [⟨"BTC-USD", ⟨2019, 10, 1⟩, 0, 5, 0, "p"⟩] "ETH-USD"
        ⟨2019, 10, 1⟩ 7 =
      [⟨"BTC-USD", ⟨2019, 10, 1⟩, 0, 5, 0, "p"⟩] :=
  (indexDelete_frame [⟨"BTC-USD", ⟨2019, 10, 1⟩, 0, 5, 0, "p"⟩] "ETH-USD"
    ⟨2019, 10, 1⟩ 7).2.2 (by decide)

/-- **C8**: every fixed-width reader operation that would read past the
mapped region's extent fails with the bounds error and returns the reader
unchanged (the offset does not move), so the journal is usable for the next
operation exactly as if the failed read had not been attempted. -/
theorem reader_fixed_reads_bounds (rd : Reader) :
    (rd.mm.length ≤ rd.offset → rd.read_byte = (Except.error JErr.bounds, rd)) ∧
    (rd.mm.length < rd.offset + 2 →
      rd.read_short = (Except.error JErr.bounds, rd)) ∧
    (rd.mm.length < rd.offset + 4 →
      rd.read_int = (Except.error JErr.bounds, rd)) ∧
    (rd.mm.length < rd.offset + 8 →
      rd.read_long = (Except.error JErr.bounds, rd)) ∧
    (rd.mm.length < rd.offset + 4 →
      rd.read_float = (Except.error JErr.bounds, rd)) ∧
    (rd.mm.length < rd.offset + 8 →
      rd.read_double = (Except.error JErr.bounds, rd)) := by
  refine ⟨fun h => ?_, fun h => ?_, fun h => ?_, fun h => ?_, fun h => ?_,
    fun h => ?_⟩
  · rw [Reader.read_byte, if_neg (by omega)]
  · rw [Reader.read_short, Reader.read_fixed, if_neg (by omega)]
  · rw [Reader.read_int, Reader.read_fixed, if_neg (by omega)]
  · rw [Reader.read_long, Reader.read_fixed, if_neg (by omega)]
  · rw [Reader.read_float, if_neg (by omega)]
  · rw [Reader.read_double, if_neg (by omega)]

/-- **C8 (witness)**: a reader at offset 4 over a 4-byte region fails each
fixed-width read with the bounds error, state unchanged. -/
theorem reader_fixed_reads_bounds_witness :
    Reader.read_byte ⟨4, [0, 0, 0, 0]⟩ = (Except.error JErr.bounds, ⟨4, [0, 0, 0, 0]⟩) ∧
    Reader.read_short ⟨4, [0, 0, 0, 0]⟩ = (Except.error JErr.bounds, ⟨4, [0, 0, 0, 0]⟩) ∧
    Reader.read_int ⟨4, [0, 0, 0, 0]⟩ = (Except.error JErr.bounds, ⟨4, [0, 0, 0, 0]⟩) ∧
    Reader.read_long ⟨4, [0, 0, 0, 0]⟩ = (Except.error JErr.bounds, ⟨4, [0, 0, 0, 0]⟩) ∧
    Reader.read_float ⟨4, [0, 0, 0, 0]⟩ = (Except.error JErr.bounds, ⟨4, [0, 0, 0, 0]⟩) ∧
    Reader.read_double ⟨4, [0, 0, 0, 0]⟩ = (Except.error JErr.bounds, ⟨4, [0, 0, 0, 0]⟩) :=
  ⟨(reader_fixed_reads_bounds ⟨4, [0, 0, 0, 0]⟩).1 (by decide),
    (reader_fixed_reads_bounds ⟨4, [0, 0, 0, 0]⟩).2.1 (by decide),
    (reader_fixed_reads_bounds ⟨4, [0, 0, 0, 0]⟩).2.2.1 (by decide),
    (reader_fixed_reads_bounds ⟨4, [0, 0, 0, 0]⟩).2.2.2.1 (by decide),
    (reader_fixed_reads_bounds ⟨4, [0, 0, 0, 0]⟩).2.2.2.2.1 (by decide),
    (reader_fixed_reads_bounds ⟨4, [0, 0, 0, 0]⟩).2.2.2.2.2 (by decide)⟩

/-! ## C4: header finalization and `get_length` -/

theorem leBytes4_eq (u : Nat) :
    leBytes 4 u =
      [u % 256, u / 256 % 256, u / 256 / 256 % 256, u / 256 / 256 / 256 % 256] :=
  rfl

theorem leValue_leBytes4 (u : Nat) :
    leValue (leBytes 4 u) = u % 4294967296 := by
  rw [leBytes4_eq]
  simp only [leValue]
  omega

theorem leSigned4_roundtrip (v : Int) (h1 : -2147483648 ≤ v)
    (h2 : v < 2147483648) :
    leSigned 4 (leBytes 4 ((v % ((2 : Int) ^ (8 * 4))).toNat)) = v := by
  unfold leSigned
  rw [leValue_leBytes4]
  norm_num
  split <;> omega

/-- **C4**: after the appender finalizes a file via `close()` (also run on
day rollover), the stored header is `~length` and a reader's `get_length()`
on the finalized file recovers exactly `pos - 4`, the number of record
bytes written after the 4-byte header (`start_pos = 4` whenever a mapping
is open). -/
theorem close_finalizes_get_length (ap : Appender) (buf : List Nat)
    (hmm : ap.mm = some buf) (hlen : 4 ≤ buf.length)
    (hstart : ap.start_pos = 4) (hsp : 4 ≤ ap.pos)
    (hbound : ap.pos - 4 < 2147483648) :
    ∃ file, ap.close = (({ ap with mm := none }, some file), none) ∧
      Reader.get_length ⟨4, file⟩ = (ap.pos : Int) - 4 := by
  have hcv1 : -(2147483648 : Int) ≤ pyNot ((ap.pos : Int) - (ap.start_pos : Int)) := by
    simp only [pyNot]
    omega
  have hcv2 : pyNot ((ap.pos : Int) - (ap.start_pos : Int)) < (2147483648 : Int) := by
    simp only [pyNot]
    omega
  simp only [Appender.close, hmm, pack_signed]
  rw [if_pos (by constructor <;> norm_num <;> [exact hcv1; exact hcv2])]
  refine ⟨_, rfl, ?_⟩
  unfold Reader.get_length
  have hl4 : (leBytes 4 ((pyNot ((ap.pos : Int) - (ap.start_pos : Int)) %
      ((2 : Int) ^ (8 * 4))).toNat)).length = 4 := by
    rw [leBytes4_eq]
    rfl
  have hrb := readBytes_writeBytes
    (leBytes 4 ((pyNot ((ap.pos : Int) - (ap.start_pos : Int)) %
      ((2 : Int) ^ (8 * 4))).toNat)) buf 0 (by rw [hl4]; omega)
  rw [hl4] at hrb
  rw [hrb, leSigned4_roundtrip _ hcv1 hcv2]
  simp only [pyNot]
  omega

/-- **C4 (witness)**: an appender at `pos = 10` over a 16-byte region
finalizes to a file whose `get_length()` is 6. -/
theorem close_finalizes_get_length_witness :
    ∃ file,
      Appender.close ⟨some ⟨2019, 10, 1⟩, 10, 4, 16, some (List.replicate 16 0)⟩ =
        ((⟨some ⟨2019, 10, 1⟩, 10, 4, 16, none⟩, some file), none) ∧
      Reader.get_length ⟨4, file⟩ = (10 : Int) - 4 :=
  close_finalizes_get_length ⟨some ⟨2019, 10, 1⟩, 10, 4, 16, some (List.replicate 16 0)⟩
    (List.replicate 16 0) rfl (by decide) rfl (by decide) (by decide)

/-! ## C1 / C5: the dedup-on-append bug in `DataFrameIndex.insert` -/

/-- **C1**: the claimed bitemporal invariant fails on the code. After
inserting version 0 and then version 1 for the same `(symbol, date)`, the
`keep='first'` dedup drops the freshly appended version-1 row, so the
index holds exactly one row — version 0 with `end_time` = the second
insert's time — no row has `end_time = latest-sentinel`, and `select` at an
`asOfTime` after the boundary returns nothing instead of version 1's path
(before the boundary it does return version 0's path). This contradicts the
function's own comments ("the next version becomes latest"). -/
theorem insert_v1_row_dropped :
    (indexInsert (indexInsert [] "BTC-USD" ⟨2019, 10, 1⟩ 100
          (create_write_path "/store" ⟨2019, 10, 1⟩ "BTC-USD")).1
        "BTC-USD" ⟨2019, 10, 1⟩ 200
        (create_write_path "/store" ⟨2019, 10, 1⟩ "BTC-USD")).1 =
      [⟨"BTC-USD", ⟨2019, 10, 1⟩, start_as_of, 200,
        0, "/store/2019/10/01/BTC-USD_0000.h5"⟩] ∧
    ((indexInsert (indexInsert [] "BTC-USD" ⟨2019, 10, 1⟩ 100
          (create_write_path "/store" ⟨2019, 10, 1⟩ "BTC-USD")).1
        "BTC-USD" ⟨2019, 10, 1⟩ 200
        (create_write_path "/store" ⟨2019, 10, 1⟩ "BTC-USD")).1.filter
      (fun r => r.end_time == latest_as_of)).length = 0 ∧
    indexSelect (indexInsert (indexInsert [] "BTC-USD" ⟨2019, 10, 1⟩ 100
          (create_write_path "/store" ⟨2019, 10, 1⟩ "BTC-USD")).1
        "BTC-USD" ⟨2019, 10, 1⟩ 200
        (create_write_path "/store" ⟨2019, 10, 1⟩ "BTC-USD")).1
      "BTC-USD" (dateVal ⟨2019, 10, 1⟩) (dateVal ⟨2019, 10, 1⟩) 300 = [] ∧
    (indexSelect (indexInsert (indexInsert [] "BTC-USD" ⟨2019, 10, 1⟩ 100
          (create_write_path "/store" ⟨2019, 10, 1⟩ "BTC-USD")).1
        "BTC-USD" ⟨2019, 10, 1⟩ 200
        (create_write_path "/store" ⟨2019, 10, 1⟩ "BTC-USD")).1
      "BTC-USD" (dateVal ⟨2019, 10, 1⟩) (dateVal ⟨2019, 10, 1⟩) 50).map
        IndexRow.path = ["/store/2019/10/01/BTC-USD_0000.h5"] := by
  decide

/-- **C5**: splay files are not write-once. The second and third inserts for
the same `(symbol, date)` both derive `{symbol}_0001.h5` (the dedup keeps
the surviving row at version 0 forever, so `prev_version + 1` is always 1),
and the third insert's `to_hdf(mode='w')` overwrites the file written by
the second. -/
theorem insert_path_reused :
    (((LocalTickstore.insert ⟨"/store", [], false⟩ "BTC-USD"
          ⟨⟨2019, 10, 1⟩, latest_as_of⟩ 100).bind
        (fun x => x.1.insert "BTC-USD" ⟨⟨2019, 10, 1⟩, latest_as_of⟩ 200)).map
        Prod.snd).toOption =
      ((((LocalTickstore.insert ⟨"/store", [], false⟩ "BTC-USD"
            ⟨⟨2019, 10, 1⟩, latest_as_of⟩ 100).bind
          (fun x => x.1.insert "BTC-USD" ⟨⟨2019, 10, 1⟩, latest_as_of⟩ 200)).bind
        (fun x => x.1.insert "BTC-USD" ⟨⟨2019, 10, 1⟩, latest_as_of⟩ 300)).map
        Prod.snd).toOption ∧
    ((LocalTickstore.insert ⟨"/store", [], false⟩ "BTC-USD"
          ⟨⟨2019, 10, 1⟩, latest_as_of⟩ 100).map Prod.snd).toOption ≠
      (((LocalTickstore.insert ⟨"/store", [], false⟩ "BTC-USD"
            ⟨⟨2019, 10, 1⟩, latest_as_of⟩ 100).bind
        (fun x => x.1.insert "BTC-USD" ⟨⟨2019, 10, 1⟩, latest_as_of⟩ 200)).map
        Prod.snd).toOption := by
  decide

/-- **C7**: on an open store, `select` returns a batch containing only
ticks whose timestamp lies in `[start, end]`, sorted ascending by that
timestamp, and the batch is empty whenever the index resolves no rows — in
particular whenever the symbol is absent from the index. -/
theorem select_filters_and_sorts (store : LocalTickstore)
    (load : String → List Tick) (symbol : String) (startT endT asOf : Int)
    (h : store.closed = false) :
    ∃ ticks, store.select load symbol startT endT asOf = Except.ok ticks ∧
      (∀ t ∈ ticks, startT ≤ t.ts ∧ t.ts ≤ endT) ∧
      List.Sorted tickLe ticks ∧
      (indexSelect store.index symbol startT endT asOf = [] → ticks = []) ∧
      ((∀ r ∈ store.index, r.symbol ≠ symbol) → ticks = []) := by
  unfold LocalTickstore.select
  simp only [h, Bool.false_eq_true, if_false]
  by_cases hsel : (indexSelect store.index symbol startT endT asOf).isEmpty = true
  · rw [if_pos hsel]
    exact ⟨[], rfl, by simp, List.sorted_nil, fun _ => rfl, fun _ => rfl⟩
  · rw [if_neg hsel]
    refine ⟨_, rfl, ?_, List.sorted_insertionSort tickLe _, ?_, ?_⟩
    · intro t ht
      rw [List.mem_insertionSort] at ht
      obtain ⟨-, hp⟩ := List.mem_filter.mp ht
      simpa using hp
    · intro hempty
      exfalso
      rw [hempty] at hsel
      exact hsel rfl
    · intro hunk
      exfalso
      have hnone : indexSelect store.index symbol startT endT asOf = [] := by
        unfold indexSelect
        rw [if_pos]
        simp only [List.all_eq_true, bne_iff_ne, ne_eq]
        exact fun r hr => hunk r hr
      rw [hnone] at hsel
      exact hsel rfl

/-- **C7 (witness)**: a concrete open store and loader satisfy the select
contract. -/
theorem select_filters_and_sorts_witness :
    ∃ ticks,
      LocalTickstore.select
          ⟨"/store", [⟨"BTC-USD", ⟨2019, 10, 1⟩, start_as_of, latest_as_of, 0, "p0"⟩],
            false⟩
          (fun _ => [⟨5, 0⟩, ⟨1, 1⟩, ⟨20, 2⟩]) "BTC-USD" 0 10 999 =
        Except.ok ticks ∧
      (∀ t ∈ ticks, 0 ≤ t.ts ∧ t.ts ≤ 10) ∧
      List.Sorted tickLe ticks ∧
      (indexSelect [⟨"BTC-USD", ⟨2019, 10, 1⟩, start_as_of, latest_as_of, 0, "p0"⟩]
          "BTC-USD" 0 10 999 = [] → ticks = []) ∧
      ((∀ r ∈ [(⟨"BTC-USD", ⟨2019, 10, 1⟩, start_as_of, latest_as_of, 0, "p0"⟩ : IndexRow)],
          r.symbol ≠ "BTC-USD") → ticks = []) :=
  select_filters_and_sorts
    ⟨"/store", [⟨"BTC-USD", ⟨2019, 10, 1⟩, start_as_of, latest_as_of, 0, "p0"⟩], false⟩
    (fun _ => [⟨5, 0⟩, ⟨1, 1⟩, ⟨20, 2⟩]) "BTC-USD" 0 10 999 rfl

/-! ## Stop-bit (base-128 varint) codec lemmas -/

/-- The byte sequence `_write_stopbit` stores for a non-negative value:
7-bit groups, least-significant first, continuation flag `0x80`. -/
def stopbitEncode (v : Nat) : List Nat :=
  if 127 < v then (0x80 ||| (v &&& 0x7f)) :: stopbitEncode (v >>> 7) else [v]
termination_by v
decreasing_by
  rw [Nat.shiftRight_eq_div_pow]
  exact Nat.div_lt_self (by omega) (by norm_num)

theorem band127_eq_mod (v : Nat) : v &&& 127 = v % 128 := by
  have h := Nat.and_pow_two_sub_one_eq_mod v 7
  norm_num at h
  exact h

theorem shiftr7_eq_div (v : Nat) : v >>> 7 = v / 128 := by
  rw [Nat.shiftRight_eq_div_pow]

theorem lor128_eq_add : ∀ r, r < 128 → 128 ||| r = 128 + r := by decide

theorem contByte_band128 : ∀ r, r < 128 → (((128 + r) &&& 128) == 0) = false := by
  decide

theorem contByte_band127 : ∀ r, r < 128 → (128 + r) &&& 127 = r := by decide

theorem small_band128 : ∀ v, v < 128 → ((v &&& 128) == 0) = true := by decide

theorem stopbitEncode_large (v : Nat) (h : 127 < v) :
    stopbitEncode v = (128 + v % 128) :: stopbitEncode (v >>> 7) := by
  rw [stopbitEncode, if_pos h, band127_eq_mod,
    lor128_eq_add (v % 128) (Nat.mod_lt v (by omega))]

theorem stopbitEncode_small (v : Nat) (h : ¬127 < v) :
    stopbitEncode v = [v] := by
  rw [stopbitEncode, if_neg h]

/-- `_write_stopbit`'s loop lands exactly the encoded bytes of `v` at `pos`
when they fit in the region, advancing `pos` past them with no error. -/
theorem write_stopbit_loop_eq (v : Nat) (buf : List Nat) (pos : Nat)
    (h : pos + (stopbitEncode v).length ≤ buf.length) :
    write_stopbit_loop buf pos v =
      ((writeBytes buf pos (stopbitEncode v),
        pos + (stopbitEncode v).length), none) := by
  induction v using Nat.strong_induction_on generalizing buf pos with
  | _ v ih =>
    by_cases hv : 127 < v
    · have hlt : v >>> 7 < v := by
        rw [Nat.shiftRight_eq_div_pow]
        exact Nat.div_lt_self (by omega) (by norm_num)
      rw [stopbitEncode_large v hv, List.length_cons] at h ⊢
      rw [write_stopbit_loop, if_pos hv, if_pos (by omega : pos < buf.length)]
      have hb : (0x80 : Nat) ||| (v &&& 0x7f) = 128 + v % 128 := by
        rw [band127_eq_mod, lor128_eq_add (v % 128) (Nat.mod_lt v (by omega))]
      rw [hb, ih (v >>> 7) hlt (buf.set pos (128 + v % 128)) (pos + 1)
        (by simp only [List.length_set]; omega)]
      simp only [writeBytes]
      rw [show pos + 1 + (stopbitEncode (v >>> 7)).length =
        pos + ((stopbitEncode (v >>> 7)).length + 1) from by omega]
    · rw [stopbitEncode_small v hv] at h ⊢
      simp only [List.length_cons, List.length_nil] at h
      rw [write_stopbit_loop, if_neg hv, if_pos (by omega : pos < buf.length)]
      simp [writeBytes]

theorem readBytes_cons (mm : List Nat) (off n b : Nat) (bs : List Nat)
    (h : readBytes mm off (n + 1) = b :: bs) :
    off < mm.length ∧ mm.getD off 0 = b ∧ readBytes mm (off + 1) n = bs := by
  unfold readBytes at h
  cases hd : mm.drop off with
  | nil =>
    rw [hd] at h
    simp at h
  | cons x t =>
    rw [hd] at h
    simp only [List.take_succ_cons, List.cons.injEq] at h
    obtain ⟨hx, ht⟩ := h
    have hlen := congrArg List.length hd
    simp only [List.length_drop, List.length_cons] at hlen
    have hoff : off < mm.length := by omega
    refine ⟨hoff, ?_, ?_⟩
    · rw [List.getD_eq_getElem?_getD]
      have h0 : mm[off]? = (mm.drop off)[0]? := by
        rw [List.getElem?_drop]
        norm_num
      rw [h0, hd]
      simpa using hx
    · have hdd : mm.drop (off + 1) = t := by
        have : mm.drop (off + 1) = (mm.drop off).drop 1 := by
          rw [List.drop_drop]
        rw [this, hd]
        rfl
      unfold readBytes
      rw [hdd, ht]

/-- `_read_stopbit` run over a region holding `stopbitEncode v` at the
offset (with accumulator state `shift`, `value`) returns
`value + v * 2 ^ shift` and stops just past the encoded bytes. -/
theorem read_stopbit_loop_enc (v : Nat) (mm : List Nat) (off shift acc : Nat)
    (hb : readBytes mm off (stopbitEncode v).length = stopbitEncode v) :
    read_stopbit_loop mm off shift acc =
      (Except.ok (acc + v * 2 ^ shift), off + (stopbitEncode v).length) := by
  induction v using Nat.strong_induction_on generalizing off shift acc with
  | _ v ih =>
    by_cases hv : 127 < v
    · have hlt : v >>> 7 < v := by
        rw [Nat.shiftRight_eq_div_pow]
        exact Nat.div_lt_self (by omega) (by norm_num)
      rw [stopbitEncode_large v hv, List.length_cons] at hb ⊢
      obtain ⟨hoff, hbyte, hrest⟩ := readBytes_cons mm off _ _ _ hb
      have hr : v % 128 < 128 := Nat.mod_lt v (by omega)
      rw [read_stopbit_loop, dif_pos hoff]
      simp only [hbyte, contByte_band128 (v % 128) hr, Bool.false_eq_true,
        if_false, contByte_band127 (v % 128) hr]
      rw [ih (v >>> 7) hlt (off + 1) (shift + 7)
        (acc + ((v % 128) <<< shift)) hrest]
      have harith : acc + ((v % 128) <<< shift) + (v >>> 7) * 2 ^ (shift + 7) =
          acc + v * 2 ^ shift := by
        rw [Nat.shiftLeft_eq, shiftr7_eq_div, pow_add]
        have hdm := Nat.div_add_mod v 128
        set q := v / 128
        set r := v % 128
        set t := (2 : Nat) ^ shift
        calc acc + r * t + q * (t * 2 ^ 7)
            = acc + (128 * q + r) * t := by ring
          _ = acc + v * t := by rw [hdm]
      rw [harith, show off + 1 + (stopbitEncode (v >>> 7)).length =
        off + ((stopbitEncode (v >>> 7)).length + 1) from by omega]
    · rw [stopbitEncode_small v hv] at hb ⊢
      obtain ⟨hoff, hbyte, -⟩ := readBytes_cons mm off _ _ _ hb
      rw [read_stopbit_loop, dif_pos hoff]
      simp only [hbyte, small_band128 v (by omega), if_true,
        band127_eq_mod, Nat.shiftLeft_eq, List.length_cons, List.length_nil]
      rw [Nat.mod_eq_of_lt (by omega)]

theorem writeBytes_getElem_lt (bs : List Nat) (buf : List Nat) (pos i : Nat)
    (h : i < pos) : (writeBytes buf pos bs)[i]? = buf[i]? := by
  induction bs generalizing buf pos with
  | nil => rfl
  | cons b bs ih =>
    rw [writeBytes, ih (buf.set pos b) (pos + 1) (by omega)]
    exact List.getElem?_set_ne (by omega)

/-- Writing a later region of the buffer leaves an earlier slice intact. -/
theorem readBytes_writeBytes_left (bs : List Nat) (buf : List Nat)
    (p2 off n : Nat) (hd : off + n ≤ p2) :
    readBytes (writeBytes buf p2 bs) off n = readBytes buf off n := by
  induction bs generalizing buf p2 with
  | nil => rfl
  | cons b bs ih =>
    rw [writeBytes, ih (buf.set p2 b) (p2 + 1) (by omega)]
    unfold readBytes
    rw [List.drop_set, if_neg (by omega), List.set_take,
      List.set_eq_of_length_le (by simp only [List.length_take]; omega)]

/-! ## UTF-8 round trip -/

theorem utf8Decode_encodeChar (c : Nat) (hc : charValid c) (rest : List Nat) :
    utf8Decode (utf8EncodeChar c ++ rest) = (utf8Decode rest).map (c :: ·) := by
  obtain ⟨hlt, -⟩ := hc
  unfold utf8EncodeChar
  by_cases h1 : c < 0x80
  · rw [if_pos h1]
    simp only [List.cons_append, List.nil_append]
    conv_lhs => rw [utf8Decode.eq_def]
    simp only [h1, if_pos, if_true]
  · rw [if_neg h1]
    by_cases h2 : c < 0x800
    · rw [if_pos h2]
      simp only [List.cons_append, List.nil_append]
      conv_lhs => rw [utf8Decode.eq_def]
      simp only [List.headD_cons, List.drop_one, List.tail_cons, List.length_cons]
      rw [if_neg (by omega), if_neg (by omega), if_pos (by omega),
        if_pos ⟨by omega, by omega, by omega⟩]
      rw [show (0xC0 + c / 0x40 - 0xC0) * 0x40 + (0x80 + c % 0x40 - 0x80) = c from
        by omega]
    · rw [if_neg h2]
      by_cases h3 : c < 0x10000
      · rw [if_pos h3]
        simp only [List.cons_append, List.nil_append]
        conv_lhs => rw [utf8Decode.eq_def]
        simp only [List.headD_cons, List.drop_succ_cons, List.drop_zero,
          List.tail_cons, List.length_cons]
        rw [if_neg (by omega), if_neg (by omega), if_neg (by omega),
          if_pos (by omega),
          if_pos ⟨by omega, ⟨by omega, by omega⟩, by omega, by omega⟩]
        rw [show (0xE0 + c / 0x1000 - 0xE0) * 0x1000 +
          (0x80 + c / 0x40 % 0x40 - 0x80) * 0x40 + (0x80 + c % 0x40 - 0x80) = c from
          by omega]
      · rw [if_neg h3]
        simp only [List.cons_append, List.nil_append]
        conv_lhs => rw [utf8Decode.eq_def]
        simp only [List.headD_cons, List.drop_succ_cons, List.drop_zero,
          List.tail_cons, List.length_cons]
        rw [if_neg (by omega), if_neg (by omega), if_neg (by omega),
          if_neg (by omega), if_pos (by omega),
          if_pos ⟨by omega, ⟨by omega, by omega⟩, ⟨by omega, by omega⟩,
            by omega, by omega⟩]
        rw [show (0xF0 + c / 0x40000 - 0xF0) * 0x40000 +
          (0x80 + c / 0x1000 % 0x40 - 0x80) * 0x1000 +
          (0x80 + c / 0x40 % 0x40 - 0x80) * 0x40 + (0x80 + c % 0x40 - 0x80) = c from
          by omega]

theorem utf8Decode_utf8Encode (cs : List Nat) (h : ∀ c ∈ cs, charValid c) :
    utf8Decode (utf8Encode cs) = some cs := by
  induction cs with
  | nil =>
    rw [show utf8Encode [] = [] from rfl, utf8Decode.eq_def]
  | cons c cs ih =>
    have hc : charValid c := h c (List.mem_cons_self c cs)
    have hcs : ∀ x ∈ cs, charValid x := fun x hx => h x (List.mem_cons_of_mem c hx)
    rw [utf8Encode, List.flatMap_cons]
    rw [show cs.flatMap utf8EncodeChar = utf8Encode cs from rfl]
    rw [utf8Decode_encodeChar c hc (utf8Encode cs), ih hcs]
    rfl

/-! ## Appender steady-state lemmas (mapping already open for today) -/

theorem get_current_mmap_steady (ap : Appender) (today : Date)
    (hcd : ap.current_date = some today) :
    ap.get_current_mmap today = (ap, none) := by
  unfold Appender.get_current_mmap
  rw [if_pos hcd]

theorem write_stopbit_steady (ap : Appender) (today : Date) (buf : List Nat)
    (k : Nat) (hcd : ap.current_date = some today) (hmm : ap.mm = some buf)
    (hsp : ap.pos + (stopbitEncode k).length ≤ buf.length) :
    ap.write_stopbit today (k : Int) =
      ({ ap with
          mm := some (writeBytes buf ap.pos (stopbitEncode k))
          pos := ap.pos + (stopbitEncode k).length }, none) := by
  have h0 : ¬((k : Int) < 0) := by omega
  have hbuf : ap.buf = buf := by
    unfold Appender.buf
    rw [hmm]
    rfl
  simp only [Appender.write_stopbit, h0, if_false,
    get_current_mmap_steady ap today hcd, Int.toNat_natCast, hbuf,
    write_stopbit_loop_eq k buf ap.pos hsp]

theorem check_space_none (ap : Appender) (n : Nat) (h : ap.pos + n < ap.max_size) :
    ap.check_space n = none := by
  unfold Appender.check_space
  rw [if_neg (by omega)]

theorem check_space_some (ap : Appender) (n : Nat) (h : ap.max_size ≤ ap.pos + n) :
    ap.check_space n = some JErr.noSpace := by
  unfold Appender.check_space
  rw [if_pos (by omega)]

theorem write_string_steady (ap : Appender) (today : Date) (buf : List Nat)
    (cs : List Nat) (hval : ∀ c ∈ cs, charValid c)
    (hcd : ap.current_date = some today) (hmm : ap.mm = some buf)
    (hbl : buf.length = ap.max_size)
    (hsp : ap.pos + (stopbitEncode (utf8Encode cs).length).length +
      (utf8Encode cs).length < ap.max_size) :
    ap.write_string today cs =
      ({ ap with
          mm := some (writeBytes
            (writeBytes buf ap.pos (stopbitEncode (utf8Encode cs).length))
            (ap.pos + (stopbitEncode (utf8Encode cs).length).length)
            (utf8Encode cs))
          pos := ap.pos + (stopbitEncode (utf8Encode cs).length).length +
            (utf8Encode cs).length }, none) := by
  have hall : cs.all (fun c => decide (charValid c)) = true := by
    simp only [List.all_eq_true, decide_eq_true_eq]
    exact hval
  simp only [Appender.write_string, hall, if_true]
  rw [write_stopbit_steady ap today buf (utf8Encode cs).length hcd hmm
    (by omega)]
  dsimp only
  rw [check_space_none _ _ (by
    show ap.pos + (stopbitEncode (utf8Encode cs).length).length +
      (utf8Encode cs).length < ap.max_size
    omega)]
  dsimp only [Appender.put, Appender.buf, Option.getD_some]

/-- **C2 (amended)**: every fixed-width appender write (`writeByte/Short/
Int/Long/Float/Double`) checks `pos + size >= maxSize` before touching the
buffer and fails with `NoSpaceError` leaving the appender unchanged — no
partial bytes. `write_string`, however, first runs `_write_stopbit`, which
has no capacity check: the varint length prefix is written and `pos`
advances past it before `_check_space` is consulted for the payload alone,
so a `write_string` that fails with `NoSpaceError` leaves the prefix bytes
in the buffer and the position advanced. -/
theorem append_write_capacity (ap : Appender) (today : Date) :
    (∀ v, v < 256 → ap.max_size ≤ ap.pos + 1 →
      ap.write_byte today v = (ap, some JErr.noSpace)) ∧
    (∀ v : Int, ap.max_size ≤ ap.pos + 2 →
      ap.write_short today v = (ap, some JErr.noSpace)) ∧
    (∀ v : Int, ap.max_size ≤ ap.pos + 4 →
      ap.write_int today v = (ap, some JErr.noSpace)) ∧
    (∀ v : Int, ap.max_size ≤ ap.pos + 8 →
      ap.write_long today v = (ap, some JErr.noSpace)) ∧
    (∀ bits, ap.max_size ≤ ap.pos + 4 →
      ap.write_float today bits = (ap, some JErr.noSpace)) ∧
    (∀ bits, ap.max_size ≤ ap.pos + 8 →
      ap.write_double today bits = (ap, some JErr.noSpace)) ∧
    (∀ (buf cs : List Nat), (∀ c ∈ cs, charValid c) →
      ap.current_date = some today → ap.mm = some buf →
      buf.length = ap.max_size →
      ap.pos + (stopbitEncode (utf8Encode cs).length).length ≤ buf.length →
      ap.max_size ≤ ap.pos + (stopbitEncode (utf8Encode cs).length).length +
        (utf8Encode cs).length →
      ap.write_string today cs =
        ({ ap with
            mm := some (writeBytes buf ap.pos
              (stopbitEncode (utf8Encode cs).length))
            pos := ap.pos + (stopbitEncode (utf8Encode cs).length).length },
          some JErr.noSpace)) := by
  refine ⟨?_, ?_, ?_, ?_, ?_, ?_, ?_⟩
  · intro v hv h
    unfold Appender.write_byte
    rw [if_pos hv, check_space_some _ _ h]
  · intro v h
    unfold Appender.write_short Appender.write_fixed
    rw [check_space_some _ _ h]
  · intro v h
    unfold Appender.write_int Appender.write_fixed
    rw [check_space_some _ _ h]
  · intro v h
    unfold Appender.write_long Appender.write_fixed
    rw [check_space_some _ _ h]
  · intro bits h
    unfold Appender.write_float Appender.write_fixed
    rw [check_space_some _ _ h]
  · intro bits h
    unfold Appender.write_double Appender.write_fixed
    rw [check_space_some _ _ h]
  · intro buf cs hval hcd hmm hbl hfit h
    have hall : cs.all (fun c => decide (charValid c)) = true := by
      simp only [List.all_eq_true, decide_eq_true_eq]
      exact hval
    simp only [Appender.write_string, hall, if_true]
    rw [write_stopbit_steady ap today buf (utf8Encode cs).length hcd hmm hfit]
    dsimp only
    rw [check_space_some _ _ (by
      show ap.max_size ≤ ap.pos + (stopbitEncode (utf8Encode cs).length).length +
        (utf8Encode cs).length
      omega)]

/-- **C2 (witness)**: concrete instances of the amended behavior — a failing
`write_short` leaves a 12-byte appender untouched, and so for the others. -/
theorem append_write_capacity_witness :
    Appender.write_short ⟨some ⟨2019, 10, 1⟩, 11, 4, 12, some (List.replicate 12 0)⟩
        ⟨2019, 10, 1⟩ 7 =
      (⟨some ⟨2019, 10, 1⟩, 11, 4, 12, some (List.replicate 12 0)⟩, some JErr.noSpace) ∧
    Appender.write_byte ⟨some ⟨2019, 10, 1⟩, 11, 4, 12, some (List.replicate 12 0)⟩
        ⟨2019, 10, 1⟩ 7 =
      (⟨some ⟨2019, 10, 1⟩, 11, 4, 12, some (List.replicate 12 0)⟩, some JErr.noSpace) ∧
    Appender.write_long ⟨some ⟨2019, 10, 1⟩, 11, 4, 12, some (List.replicate 12 0)⟩
        ⟨2019, 10, 1⟩ 7 =
      (⟨some ⟨2019, 10, 1⟩, 11, 4, 12, some (List.replicate 12 0)⟩, some JErr.noSpace) :=
  ⟨(append_write_capacity ⟨some ⟨2019, 10, 1⟩, 11, 4, 12, some (List.replicate 12 0)⟩
      ⟨2019, 10, 1⟩).2.1 7 (by decide),
    (append_write_capacity ⟨some ⟨2019, 10, 1⟩, 11, 4, 12, some (List.replicate 12 0)⟩
      ⟨2019, 10, 1⟩).1 7 (by decide) (by decide),
    (append_write_capacity ⟨some ⟨2019, 10, 1⟩, 11, 4, 12, some (List.replicate 12 0)⟩
      ⟨2019, 10, 1⟩).2.2.2.1 7 (by decide)⟩

/-- **C2 (counterexample)**: `write_string` is not atomic on the
`NoSpaceError` path. On a 12-byte journal at `pos = 4`, writing the 7-byte
string "abcdefg" fails with `NoSpaceError`, yet the varint prefix byte `7`
is already stored at offset 4 and the position has advanced to 5 — partial
bytes of the failed record are observable, contradicting the claim. -/
theorem write_string_partial_write :
    Appender.write_string ⟨some ⟨2019, 10, 1⟩, 4, 4, 12, some (List.replicate 12 0)⟩
        ⟨2019, 10, 1⟩ [97, 98, 99, 100, 101, 102, 103] =
      (⟨some ⟨2019, 10, 1⟩, 5, 4, 12, some ((List.replicate 12 0).set 4 7)⟩,
        some JErr.noSpace) ∧
    some ((List.replicate 12 0).set 4 7) ≠ some (List.replicate 12 0) ∧
    (5 : Nat) ≠ 4 := by
  refine ⟨?_, by decide, by decide⟩
  have henc : utf8Encode [97, 98, 99, 100, 101, 102, 103] =
      [97, 98, 99, 100, 101, 102, 103] := rfl
  have hlen : (utf8Encode [97, 98, 99, 100, 101, 102, 103]).length = 7 := by
    rw [henc]
    rfl
  have hsb : stopbitEncode (utf8Encode [97, 98, 99, 100, 101, 102, 103]).length
      = [7] := by
    rw [hlen, stopbitEncode_small 7 (by omega)]
  have h := (append_write_capacity
    ⟨some ⟨2019, 10, 1⟩, 4, 4, 12, some (List.replicate 12 0)⟩ ⟨2019, 10, 1⟩).2.2.2.2.2.2
    (List.replicate 12 0) [97, 98, 99, 100, 101, 102, 103]
    (by decide) rfl rfl (by decide)
    (by rw [hsb]; decide) (by rw [hsb, hlen]; decide)
  rw [hsb] at h
  exact h.trans (by rfl)

/-- **C3**: (i) stop-bit round trip — for every non-negative length `n`,
`_write_stopbit` writes `stopbitEncode n` and `_read_stopbit` at the same
offset returns exactly `n`; (ii) string round trip — `write_string`
followed by `read_string` at the same offset returns the original string
(any valid code points, multi-byte UTF-8 included); (iii) varint-encoding a
negative length fails with the `EncodingError` (`ValueError` in the code)
and writes nothing. -/
theorem codec_roundtrip :
    (∀ (n : Nat) (ap : Appender) (today : Date) (buf : List Nat),
      ap.current_date = some today → ap.mm = some buf →
      ap.pos + (stopbitEncode n).length ≤ buf.length →
      ∃ buf2,
        ap.write_stopbit today (n : Int) =
          ({ ap with
              mm := some buf2
              pos := ap.pos + (stopbitEncode n).length }, none) ∧
        Reader.read_stopbit ⟨ap.pos, buf2⟩ =
          (Except.ok n, ⟨ap.pos + (stopbitEncode n).length, buf2⟩)) ∧
    (∀ (cs : List Nat) (ap : Appender) (today : Date) (buf : List Nat),
      (∀ c ∈ cs, charValid c) →
      ap.current_date = some today → ap.mm = some buf →
      buf.length = ap.max_size →
      ap.pos + (stopbitEncode (utf8Encode cs).length).length +
        (utf8Encode cs).length < ap.max_size →
      ∃ buf2,
        ap.write_string today cs =
          ({ ap with
              mm := some buf2
              pos := ap.pos + (stopbitEncode (utf8Encode cs).length).length +
                (utf8Encode cs).length }, none) ∧
        Reader.read_string ⟨ap.pos, buf2⟩ =
          (Except.ok cs,
            ⟨ap.pos + (stopbitEncode (utf8Encode cs).length).length +
              (utf8Encode cs).length, buf2⟩)) ∧
    (∀ (ap : Appender) (today : Date) (v : Int), v < 0 →
      ap.write_stopbit today v = (ap, some JErr.encoding)) := by
  refine ⟨?_, ?_, ?_⟩
  · intro n ap today buf hcd hmm hsp
    refine ⟨writeBytes buf ap.pos (stopbitEncode n),
      write_stopbit_steady ap today buf n hcd hmm hsp, ?_⟩
    unfold Reader.read_stopbit
    have hrb : readBytes (writeBytes buf ap.pos (stopbitEncode n)) ap.pos
        (stopbitEncode n).length = stopbitEncode n :=
      readBytes_writeBytes _ buf ap.pos hsp
    rw [read_stopbit_loop_enc n _ ap.pos 0 0 hrb]
    norm_num
  · intro cs ap today buf hval hcd hmm hbl hsp
    refine ⟨_, write_string_steady ap today buf cs hval hcd hmm hbl hsp, ?_⟩
    have hlb1 : (writeBytes buf ap.pos (stopbitEncode (utf8Encode cs).length)).length
        = buf.length :=
      writeBytes_length _ buf ap.pos
    have hP : readBytes
        (writeBytes (writeBytes buf ap.pos (stopbitEncode (utf8Encode cs).length))
          (ap.pos + (stopbitEncode (utf8Encode cs).length).length) (utf8Encode cs))
        ap.pos (stopbitEncode (utf8Encode cs).length).length =
        stopbitEncode (utf8Encode cs).length := by
      rw [readBytes_writeBytes_left _ _ _ _ _ (le_refl _)]
      exact readBytes_writeBytes _ buf ap.pos (by omega)
    have hE : readBytes
        (writeBytes (writeBytes buf ap.pos (stopbitEncode (utf8Encode cs).length))
          (ap.pos + (stopbitEncode (utf8Encode cs).length).length) (utf8Encode cs))
        (ap.pos + (stopbitEncode (utf8Encode cs).length).length)
        (utf8Encode cs).length = utf8Encode cs :=
      readBytes_writeBytes _ _ _ (by rw [hlb1]; omega)
    unfold Reader.read_string Reader.read_stopbit
    rw [read_stopbit_loop_enc (utf8Encode cs).length _ ap.pos 0 0 hP]
    dsimp only
    rw [show 0 + (utf8Encode cs).length * 2 ^ 0 = (utf8Encode cs).length from
      by ring]
    rw [hE, utf8Decode_utf8Encode cs hval]
  · intro ap today v hv
    unfold Appender.write_stopbit
    rw [if_pos hv]

/-- **C3 (witness)**: the round trips at concrete inputs — length 300
(a two-group varint), the string "hЖ😀" (1-, 2- and 4-byte UTF-8), and a
negative length failing with the encoding error. -/
theorem codec_roundtrip_witness :
    (∃ buf2,
      Appender.write_stopbit
          ⟨some ⟨2019, 10, 1⟩, 4, 4, 16, some (List.replicate 16 0)⟩
          ⟨2019, 10, 1⟩ ((300 : Nat) : Int) =
        (⟨some ⟨2019, 10, 1⟩, 4 + (stopbitEncode 300).length, 4, 16, some buf2⟩,
          none) ∧
      Reader.read_stopbit ⟨4, buf2⟩ =
        (Except.ok 300, ⟨4 + (stopbitEncode 300).length, buf2⟩)) ∧
    (∃ buf2,
      Appender.write_string
          ⟨some ⟨2019, 10, 1⟩, 4, 4, 16, some (List.replicate 16 0)⟩
          ⟨2019, 10, 1⟩ [104, 1046, 128512] =
        (⟨some ⟨2019, 10, 1⟩,
          4 + (stopbitEncode (utf8Encode [104, 1046, 128512]).length).length +
            (utf8Encode [104, 1046, 128512]).length, 4, 16, some buf2⟩, none) ∧
      Reader.read_string ⟨4, buf2⟩ =
        (Except.ok [104, 1046, 128512],
          ⟨4 + (stopbitEncode (utf8Encode [104, 1046, 128512]).length).length +
            (utf8Encode [104, 1046, 128512]).length, buf2⟩)) ∧
    Appender.write_stopbit
        ⟨some ⟨2019, 10, 1⟩, 4, 4, 16, some (List.replicate 16 0)⟩
        ⟨2019, 10, 1⟩ (-1) =
      (⟨some ⟨2019, 10, 1⟩, 4, 4, 16, some (List.replicate 16 0)⟩,
        some JErr.encoding) := by
  refine ⟨?_, ?_, ?_⟩
  · exact codec_roundtrip.1 300
      ⟨some ⟨2019, 10, 1⟩, 4, 4, 16, some (List.replicate 16 0)⟩ ⟨2019, 10, 1⟩
      (List.replicate 16 0) rfl rfl (by
        show 4 + (stopbitEncode 300).length ≤ 16
        rw [stopbitEncode_large 300 (by norm_num), shiftr7_eq_div]
        norm_num [stopbitEncode_small])
  · exact codec_roundtrip.2.1 [104, 1046, 128512]
      ⟨some ⟨2019, 10, 1⟩, 4, 4, 16, some (List.replicate 16 0)⟩ ⟨2019, 10, 1⟩
      (List.replicate 16 0) (by decide) rfl rfl rfl (by
        show 4 + (stopbitEncode (utf8Encode [104, 1046, 128512]).length).length +
          (utf8Encode [104, 1046, 128512]).length < 16
        rw [show (utf8Encode [104, 1046, 128512]).length = 7 from rfl,
          stopbitEncode_small 7 (by norm_num)]
        norm_num)
  · exact codec_roundtrip.2.2
      ⟨some ⟨2019, 10, 1⟩, 4, 4, 16, some (List.replicate 16 0)⟩ ⟨2019, 10, 1⟩
      (-1) (by norm_num)
